import Mathlib

set_option maxRecDepth 16384

/-!
Verification of the optical-throughput models of `etc/models.py`.

The repository composes wavelength-sampled efficiency curves (atmosphere,
telescope mirrors, instrument optics, filters, detector quantum efficiency)
into an aggregate throughput.  The curve values and wavelengths are embedded
as rationals; the component classes `Site`, `Telescope` and `Instrument`
are embedded as structures with their operators as functions.  Fallible
operations return `Option`/`Except`.
-/

/-- Modelled from the spec: the curve type used by the source is the synphot
`BaseUnitlessSpectrum`/`SpectralElement` library type, which is not part of
this repository.  Following spec §3/§4.1, a Curve is a list of
(wavelength, value) samples (wavelengths strictly increasing) plus
provenance metadata, with linear interpolation between samples. -/
structure Curve where
  samples : List (ℚ × ℚ)
  meta : List (String × String)
deriving DecidableEq

instance : Inhabited Curve := ⟨⟨[], []⟩⟩

/-- The sample wavelengths of a curve (its native grid). -/
def Curve.grid (c : Curve) : List ℚ := c.samples.map Prod.fst

/-- Lower end of the native domain (first sample wavelength). -/
def Curve.lo (c : Curve) : ℚ := c.grid.head?.getD 0

/-- Upper end of the native domain (last sample wavelength). -/
def Curve.hi (c : Curve) : ℚ := c.grid.getLast?.getD 0

/-- Well-formedness from spec §3: at least one sample and strictly
increasing wavelengths. -/
def Curve.WF (c : Curve) : Prop :=
  c.samples ≠ [] ∧ List.Pairwise (· < ·) c.grid

instance (c : Curve) : Decidable c.WF := by
  unfold Curve.WF; infer_instance

/-- Modelled from the spec: linear interpolation between bracketing samples
(spec §4.1 `evaluate`).  Total on the sample list; callers guard the domain. -/
def interp : List (ℚ × ℚ) → ℚ → ℚ
  | [], _ => 0
  | [(_, v)], _ => v
  | (w1, v1) :: (w2, v2) :: rest, x =>
      if x ≤ w1 then v1
      else if x ≤ w2 then v1 + (v2 - v1) * (x - w1) / (w2 - w1)
      else interp ((w2, v2) :: rest) x

/-- Modelled from the spec: `evaluate` returns the interpolated value inside
the native domain and fails (None) outside it (spec §4.1). -/
def evaluate (c : Curve) (x : ℚ) : Option ℚ :=
  if c.lo ≤ x ∧ x ≤ c.hi then some (interp c.samples x) else none

/-- Fuel-indexed sorted merge (deduplicating) of two wavelength grids. -/
def mergeFuel : ℕ → List ℚ → List ℚ → List ℚ
  | 0, _, _ => []
  | _ + 1, [], ys => ys
  | _ + 1, x :: xs, [] => x :: xs
  | n + 1, x :: xs, y :: ys =>
      if x < y then x :: mergeFuel n xs (y :: ys)
      else if y < x then y :: mergeFuel n (x :: xs) ys
      else x :: mergeFuel n xs ys

/-- Sorted deduplicating union of two wavelength grids. -/
def merge (xs ys : List ℚ) : List ℚ := mergeFuel (xs.length + ys.length) xs ys

/-- Modelled from the spec: Curve multiplication (spec §4.1 `multiply`).
The result's domain is the intersection of the operands' native domains, its
grid is the union of the sample wavelengths restricted to that intersection,
and each operand is evaluated at every resulting grid point with the values
multiplied pointwise. -/
def curveMul (a b : Curve) : Curve :=
  let L := max a.lo b.lo
  let H := min a.hi b.hi
  let g := (merge a.grid b.grid).filter (fun x => decide (L ≤ x) && decide (x ≤ H))
  ⟨g.map (fun x => (x, interp a.samples x * interp b.samples x)), []⟩

/-- Modelled from the spec: Curve division, symmetric to `curveMul`
(spec §4.1 `divide`); division by a zero sample follows the rational
convention `x / 0 = 0` and is not exercised by any claim. -/
def curveDiv (a b : Curve) : Curve :=
  let L := max a.lo b.lo
  let H := min a.hi b.hi
  let g := (merge a.grid b.grid).filter (fun x => decide (L ≤ x) && decide (x ≤ H))
  ⟨g.map (fun x => (x, interp a.samples x / interp b.samples x)), []⟩

/-- Modelled from the spec: multiplying a Curve by a scalar keeps the grid
and scales the values uniformly (spec §4.1). -/
def curveScale (c : Curve) (q : ℚ) : Curve :=
  ⟨c.samples.map (fun p => (p.1, p.2 * q)), c.meta⟩

/-- Modelled from the spec: dividing a Curve by a scalar keeps the grid and
divides the values uniformly. -/
def curveScaleDiv (c : Curve) (q : ℚ) : Curve :=
  ⟨c.samples.map (fun p => (p.1, p.2 / q)), c.meta⟩

/-- Curve construction with the `keep_neg` policy flag of the source: when
`keepNeg` is false, values below 0 are clamped to 0 (spec §4.1). -/
def mkCurve (keepNeg : Bool) (samples : List (ℚ × ℚ)) (meta : List (String × String)) : Curve :=
  ⟨if keepNeg then samples else samples.map (fun p => (p.1, max p.2 0)), meta⟩

/-- A curve with constant value `v` on the grid `g`. -/
def uniformCurve (g : List ℚ) (v : ℚ) : Curve :=
  ⟨g.map (fun w => (w, v)), []⟩

/-- The characterization grid `np.arange(300, 1501, 1) * u.nm` used by the
scalar constructors in `models.py`: 300, 301, ..., 1500 nm. -/
def grid300 : List ℚ := (List.range 1201).map (fun i => 300 + (i : ℚ))

/-- Maximum of a list of rationals (0 for the empty list); models `.max()`
on a sampled throughput array. -/
def listMax : List ℚ → ℚ
  | [] => 0
  | [v] => v
  | v :: w :: rest => max v (listMax (w :: rest))

/-- `Site` (models.py lines 31-76): a site location with an optional
atmospheric transmission Curve.  Latitude/longitude/altitude bookkeeping is
omitted (not used by any throughput computation). -/
structure Site where
  name : String
  transmission : Curve
deriving DecidableEq

/-- `Telescope` (models.py lines 79-142): size/area bookkeeping omitted. -/
structure Telescope where
  name : String
  num_mirrors : ℕ
  reflectivity : Curve
deriving DecidableEq

/-- The detector quantum-efficiency attribute `Instrument.ccd`: either the
scalar it was given, or a Curve loaded from a table (models.py 177-189). -/
inductive CCDVal
  | scalar (q : ℚ)
  | curve (c : Curve)
deriving DecidableEq

/-- `Instrument` (models.py lines 145-189): imager/spectrograph tag and
pixel bookkeeping omitted. -/
structure Instrument where
  name : String
  transmission : Curve
  filterlist : List String
  filterset : List (String × Curve)
  ccd : CCDVal
deriving DecidableEq

/-- The possible right-hand operands of the Python `*` and `/` operators on
the model classes. -/
inductive Operand
  | curve (c : Curve)
  | scalar (q : ℚ)
  | site (s : Site)
  | tel (t : Telescope)
  | inst (i : Instrument)
deriving DecidableEq

/-- Modelled from the spec: multiplication of a synphot spectrum by an
operand.  A Curve or scalar operand succeeds; any other object (such as an
unconverted `Site`/`Telescope`/`Instrument` model) is not a valid synphot
operand and the operation fails. -/
def spectrum_mul (c : Curve) : Operand → Option Curve
  | .curve d => some (curveMul c d)
  | .scalar q => some (curveScale c q)
  | _ => none

/-- Modelled from the spec: division of a synphot spectrum by an operand,
symmetric to `spectrum_mul`. -/
def spectrum_div (c : Curve) : Operand → Option Curve
  | .curve d => some (curveDiv c d)
  | .scalar q => some (curveScaleDiv c q)
  | _ => none

/-- `Site.__mul__` (models.py 55-62).  A Telescope operand is replaced by its
reflectivity and an Instrument operand by its transmission, then the stored
transmission is multiplied.  The source executes `newcls = self` followed by
`newcls.transmission = ...; return newcls`, i.e. the returned object is the
operand itself with its stored Curve rebound; the result is the pair
(returned object, self after the call), which are one and the same. -/
def Site.mul (s : Site) (o : Operand) : Option (Site × Site) :=
  let o' := match o with
    | .tel t => Operand.curve t.reflectivity
    | .inst i => Operand.curve i.transmission
    | x => x
  (spectrum_mul s.transmission o').map (fun c => (⟨s.name, c⟩, ⟨s.name, c⟩))

/-- `Site.__rmul__` (models.py 64-65): delegates to `__mul__`. -/
def Site.rmul (s : Site) (o : Operand) : Option (Site × Site) := s.mul o

/-- `Site.__truediv__` (models.py 67-70): same aliasing pattern, with
division and no operand conversion. -/
def Site.truediv (s : Site) (o : Operand) : Option (Site × Site) :=
  (spectrum_div s.transmission o).map (fun c => (⟨s.name, c⟩, ⟨s.name, c⟩))

/-- `Telescope.__mul__` (models.py 125-128): no operand conversion at all;
the stored reflectivity is multiplied by the operand as given, and the
returned object aliases `self`. -/
def Telescope.mul (t : Telescope) (o : Operand) : Option (Telescope × Telescope) :=
  (spectrum_mul t.reflectivity o).map
    (fun c => (⟨t.name, t.num_mirrors, c⟩, ⟨t.name, t.num_mirrors, c⟩))

/-- `Telescope.__rmul__` (models.py 130-131): delegates to `__mul__`. -/
def Telescope.rmul (t : Telescope) (o : Operand) : Option (Telescope × Telescope) := t.mul o

/-- `Telescope.__truediv__` (models.py 133-136). -/
def Telescope.truediv (t : Telescope) (o : Operand) : Option (Telescope × Telescope) :=
  (spectrum_div t.reflectivity o).map
    (fun c => (⟨t.name, t.num_mirrors, c⟩, ⟨t.name, t.num_mirrors, c⟩))

/-- `Site.__init__` with a scalar transmission (models.py 39-45, 53): a
uniform transmission over 300-1500 nm, stored with `keep_neg=False`. -/
def Site.init_scalar (name : String) (t : ℚ) : Site :=
  ⟨name, mkCurve false (grid300.map (fun w => (w, t))) []⟩

/-- `Telescope.__init__` with a scalar per-mirror reflectivity
(models.py 87-104): a uniform per-mirror curve over 300-1500 nm with
`keep_neg=True`, then multiplied by itself `num_mirrors - 1` further times
(`for x in range(0, self.num_mirrors-1): self.reflectivity *= mirror_se`). -/
def Telescope.init_scalar (name : String) (r : ℚ) (num_mirrors : ℕ) : Telescope :=
  let mirror_se := mkCurve true (grid300.map (fun w => (w, r))) []
  let refl := (List.range (num_mirrors - 1)).foldl (fun acc _ => curveMul acc mirror_se) mirror_se
  ⟨name, num_mirrors, refl⟩

/-- `Telescope.tpeak` (models.py 106-123): the maximum of the reflectivity
curve sampled on its own waveset. -/
def Telescope.tpeak (t : Telescope) : ℚ :=
  listMax (t.reflectivity.samples.map Prod.snd)

/-- The filter data files reachable from the token mapping of
`Instrument.set_bandpass_from_filter` (models.py 215-237); each constructor
stands for one `Conf` item. -/
inductive FilterFile
  | lco_u | lco_g | lco_r | lco_i | lco_zs | lco_c2 | lco_c3 | lco_oh | lco_cn
  | lco_nh2 | lco_cr | lco_U | lco_B | lco_V | lco_R | lco_I
  | wht_U | wht_B | wht_V | wht_R | wht_I
deriving DecidableEq

/-- The configured path string of a filter file, recorded in the loaded
curve's header (models.py 252). -/
def FilterFile.fname : FilterFile → String
  | .lco_u => "lco_u_file" | .lco_g => "lco_g_file" | .lco_r => "lco_r_file"
  | .lco_i => "lco_i_file" | .lco_zs => "lco_zs_file" | .lco_c2 => "lco_c2_file"
  | .lco_c3 => "lco_c3_file" | .lco_oh => "lco_oh_file" | .lco_cn => "lco_cn_file"
  | .lco_nh2 => "lco_nh2_file" | .lco_cr => "lco_cr_file" | .lco_U => "lco_U_file"
  | .lco_B => "lco_B_file" | .lco_V => "lco_V_file" | .lco_R => "lco_R_file"
  | .lco_I => "lco_I_file" | .wht_U => "wht_U_file" | .wht_B => "wht_B_file"
  | .wht_V => "wht_V_file" | .wht_R => "wht_R_file" | .wht_I => "wht_I_file"

/-- The loader environment: the samples each filter file parses to, and each
Conf item's description string.  The parsing dialects themselves (LCO iLab
CSV, SVO remote service, generic ASCII) are black-box loaders per spec §1,
all returning wavelength/throughput samples. -/
structure FilterEnv where
  data : FilterFile → List (ℚ × ℚ)
  descrip : FilterFile → String

/-- The filter-token-to-file mapping of models.py 215-237.  Note that both
`"z"` and `"zs"` map to `Conf.lco_zs_file`. -/
def filter_mapping : List (String × FilterFile) :=
  [("u", .lco_u), ("g", .lco_g), ("r", .lco_r), ("i", .lco_i),
   ("z", .lco_zs), ("zs", .lco_zs), ("C2", .lco_c2), ("C3", .lco_c3),
   ("OH", .lco_oh), ("CN", .lco_cn), ("NH2", .lco_nh2), ("CR", .lco_cr),
   ("U", .lco_U), ("B", .lco_B), ("V", .lco_V), ("R", .lco_R), ("I", .lco_I),
   ("WHT_U", .wht_U), ("WHT_B", .wht_B), ("WHT_V", .wht_V), ("WHT_R", .wht_R),
   ("WHT_I", .wht_I)]

/-- Token normalization of models.py 212-213: a two-character token whose
second character is `p` is reduced to its first character. -/
def normalize_token (t : String) : String :=
  if t.length = 2 ∧ t.data[1]? = some 'p' then String.mk (t.data.take 1) else t

/-- `Instrument.set_bandpass_from_filter` (models.py 206-256): normalize the
token, look it up in the mapping (ETCError if absent), load the file's
samples with `keep_neg` defaulted (False), and record filename, description
and the resolved token in the metadata. -/
def Instrument.set_bandpass_from_filter (env : FilterEnv) (t : String) : Except String Curve :=
  let t' := normalize_token t
  match filter_mapping.lookup t' with
  | none => .error ("Filter name " ++ t' ++ " is invalid.")
  | some f => .ok (mkCurve false (env.data f)
      [("filename", f.fname), ("descrip", env.descrip f), ("expr", t')])

/-- The filterset population loop of `Instrument.__init__` (models.py
171-175): iterate the filter list in order, resolving each token not already
present; a resolution failure aborts construction. -/
def build_filterset (env : FilterEnv) : List String → List (String × Curve) →
    Except String (List (String × Curve))
  | [], acc => .ok acc
  | f :: rest, acc =>
      if (acc.lookup f).isSome then build_filterset env rest acc
      else
        match Instrument.set_bandpass_from_filter env f with
        | .error e => .error e
        | .ok c => build_filterset env rest (acc ++ [(f, c)])

/-- `Instrument._compute_transmission` (models.py 266-279): AR coatings,
then lenses, then mirrors. -/
def Instrument.compute_transmission (num_ar_coatings : ℕ) (ar_coating : ℚ)
    (num_lenses : ℕ) (lens_trans : ℚ) (num_mirrors : ℕ) (mirror_refl : ℚ) : ℚ :=
  let throughput := ar_coating ^ num_ar_coatings
  let throughput := throughput * lens_trans ^ num_lenses
  throughput * mirror_refl ^ num_mirrors

/-- Arithmetic mean of a list of rationals (`numpy.mean`). -/
def mean (l : List ℚ) : ℚ := l.sum / (l.length : ℚ)

/-- The percentage-rescaling step applied to a detector QE table
(models.py 183-185): if the mean sample exceeds 1.0, divide every sample by
100 and record a note; otherwise leave the samples untouched.  Returns the
processed values and the header entries added. -/
def process_qe (vals : List ℚ) : List ℚ × List (String × String) :=
  if 1 < mean vals then
    (vals.map (fun v => v / 100), [("notes", "Divided by 100.0 to convert from percentage")])
  else (vals, [])

/-- The detector QE input of `Instrument.__init__`: a scalar, or a table of
samples read from the named file (the file parse itself is a black-box
loader per spec §1). -/
inductive QEInput
  | scalar (q : ℚ)
  | table (samples : List (ℚ × ℚ)) (fname : String)

/-- The `ccd` handling of `Instrument.__init__` (models.py 177-189): a
scalar is stored as is; a table is rescaled by `process_qe`, the filename is
recorded, and the curve is built with `keep_neg=False`. -/
def load_ccd : QEInput → CCDVal
  | .scalar q => .scalar q
  | .table samples fname =>
      let vals := samples.map Prod.snd
      let processed := process_qe vals
      .curve (mkCurve false ((samples.map Prod.fst).zip processed.1)
        (processed.2 ++ [("filename", fname)]))

/-- The metadata of a loaded QE curve (empty for a scalar QE). -/
def ccd_curve_meta : CCDVal → List (String × String)
  | .scalar _ => []
  | .curve c => c.meta

/-- Multiplication of a Curve by the stored `ccd` attribute: synphot scales
by a scalar and multiplies by a curve. -/
def ccd_mul (c : Curve) : CCDVal → Curve
  | .scalar q => curveScale c q
  | .curve d => curveMul c d

/-- `Instrument.__init__` (models.py 146-189): compute the internal
transmission scalar, synthesize its uniform curve over 300-1500 nm
(`keep_neg=True`), populate the filterset from the filter list, and load the
detector QE. -/
def Instrument.init (env : FilterEnv) (name : String)
    (num_ar_coatings num_lenses num_mirrors : ℕ)
    (ar_coating lens_trans mirror_refl : ℚ)
    (filterlist : List String) (ccd_in : QEInput) : Except String Instrument :=
  let t := Instrument.compute_transmission num_ar_coatings ar_coating
    num_lenses lens_trans num_mirrors mirror_refl
  let transmission := mkCurve true (grid300.map (fun w => (w, t))) []
  match build_filterset env filterlist [] with
  | .error e => .error e
  | .ok fs => .ok ⟨name, transmission, filterlist, fs, load_ccd ccd_in⟩

/-- `Instrument.throughput` (models.py 258-264): ETCError unless the token is
in both the filter list and the filterset; otherwise the product
filter x internal transmission x detector QE. -/
def Instrument.throughput (i : Instrument) (f : String) : Except String Curve :=
  if f ∈ i.filterlist ∧ (i.filterset.lookup f).isSome then
    .ok (ccd_mul (curveMul ((i.filterset.lookup f).getD default) i.transmission) i.ccd)
  else .error ("Filter name " ++ f ++ " is invalid.")

/-- An atmospheric transmission table as seen by `specio.read_spec`
(black-box loader per spec §1): the `lam` wavelength column and the optional
`trans` (primary dialect, nm) and `flux` (ESO-SM01 dialect, micron) columns. -/
structure SkyTable where
  lam : List ℚ
  trans : Option (List ℚ)
  flux : Option (List ℚ)

/-- Modelled from the spec: `specio.read_spec(..., flux_col='trans',
wave_unit=nm)` raises KeyError when the `trans` column is absent. -/
def read_spec_trans (f : SkyTable) : Except Unit (List (ℚ × ℚ)) :=
  match f.trans with
  | some vals => .ok (f.lam.zip vals)
  | none => .error ()

/-- Modelled from the spec: the ESO-SM01 dialect read, `flux_col='flux'`
with wavelengths in microns (converted here to nm). -/
def read_spec_flux_micron (f : SkyTable) : Except Unit (List (ℚ × ℚ)) :=
  match f.flux with
  | some vals => .ok ((f.lam.map (fun w => w * 1000)).zip vals)
  | none => .error ()

/-- The read attempts `Site.__init__` can make on a transmission file. -/
inductive ReadAttempt
  | primary
  | eso
deriving DecidableEq

/-- The file branch of `Site.__init__` (models.py 47-53): try the primary
dialect; on KeyError try the ESO dialect once; any further failure
propagates.  Returns the list of read attempts made and the outcome. -/
def Site.load_transmission (f : SkyTable) : List ReadAttempt × Except Unit Curve :=
  match read_spec_trans f with
  | .ok pts => ([.primary], .ok (mkCurve false pts []))
  | .error _ =>
      match read_spec_flux_micron f with
      | .ok pts => ([.primary, .eso], .ok (mkCurve false pts []))
      | .error e => ([.primary, .eso], .error e)

theorem mergeFuel_comm : ∀ (n : ℕ) (xs ys : List ℚ), mergeFuel n xs ys = mergeFuel n ys xs := by
  intro n
  induction n with
  | zero => intro xs ys; rfl
  | succ n ih =>
    intro xs ys
    match xs, ys with
    | [], [] => rfl
    | [], y :: ys => rfl
    | x :: xs, [] => rfl
    | x :: xs, y :: ys =>
      simp only [mergeFuel]
      rcases lt_trichotomy x y with h | h | h
      · rw [if_pos h, if_neg (asymm h), if_pos h, ih]
      · subst h
        simp only [lt_self_iff_false, if_false]
        rw [ih]
      · rw [if_neg (asymm h), if_pos h, if_pos h, ih]

theorem mem_mergeFuel : ∀ (n : ℕ) (xs ys : List ℚ), xs.length + ys.length ≤ n →
    ∀ z : ℚ, z ∈ mergeFuel n xs ys ↔ z ∈ xs ∨ z ∈ ys := by
  intro n
  induction n with
  | zero =>
    intro xs ys h z
    match xs, ys with
    | [], [] => simp [mergeFuel]
    | [], y :: ys => simp at h
    | x :: xs, ys => simp at h
  | succ n ih =>
    intro xs ys h z
    match xs, ys with
    | [], ys => simp [mergeFuel]
    | x :: xs, [] => simp [mergeFuel]
    | x :: xs, y :: ys =>
      simp only [mergeFuel]
      have hlen1 : xs.length + (y :: ys).length ≤ n := by
        simp only [List.length_cons] at h ⊢; omega
      have hlen2 : (x :: xs).length + ys.length ≤ n := by
        simp only [List.length_cons] at h ⊢; omega
      have hlen3 : xs.length + ys.length ≤ n := by
        simp only [List.length_cons] at h; omega
      rcases lt_trichotomy x y with hlt | heq | hgt
      · rw [if_pos hlt]
        simp only [List.mem_cons, ih xs (y :: ys) hlen1 z]
        tauto
      · subst heq
        simp only [lt_self_iff_false, if_false]
        simp only [List.mem_cons, ih xs ys hlen3 z]
        tauto
      · rw [if_neg (asymm hgt), if_pos hgt]
        simp only [List.mem_cons, ih (x :: xs) ys hlen2 z]
        tauto

theorem pairwise_mergeFuel : ∀ (n : ℕ) (xs ys : List ℚ), xs.length + ys.length ≤ n →
    List.Pairwise (· < ·) xs → List.Pairwise (· < ·) ys →
    List.Pairwise (· < ·) (mergeFuel n xs ys) := by
  intro n
  induction n with
  | zero => intro xs ys h _ _; exact List.Pairwise.nil
  | succ n ih =>
    intro xs ys h hx hy
    match xs, ys with
    | [], ys => simpa [mergeFuel] using hy
    | x :: xs, [] => simpa [mergeFuel] using hx
    | x :: xs, y :: ys =>
      simp only [mergeFuel]
      have hlen1 : xs.length + (y :: ys).length ≤ n := by
        simp only [List.length_cons] at h ⊢; omega
      have hlen2 : (x :: xs).length + ys.length ≤ n := by
        simp only [List.length_cons] at h ⊢; omega
      have hlen3 : xs.length + ys.length ≤ n := by
        simp only [List.length_cons] at h; omega
      have hx1 := (List.pairwise_cons.mp hx).1
      have hx2 := (List.pairwise_cons.mp hx).2
      have hy1 := (List.pairwise_cons.mp hy).1
      have hy2 := (List.pairwise_cons.mp hy).2
      rcases lt_trichotomy x y with hlt | heq | hgt
      · rw [if_pos hlt]
        refine List.pairwise_cons.mpr ⟨?_, ih xs (y :: ys) hlen1 hx2 hy⟩
        intro z hz
        rcases (mem_mergeFuel n xs (y :: ys) hlen1 z).mp hz with hz1 | hz2
        · exact hx1 z hz1
        · rcases List.mem_cons.mp hz2 with rfl | hz3
          · exact hlt
          · exact lt_trans hlt (hy1 z hz3)
      · subst heq
        simp only [lt_self_iff_false, if_false]
        refine List.pairwise_cons.mpr ⟨?_, ih xs ys hlen3 hx2 hy2⟩
        intro z hz
        rcases (mem_mergeFuel n xs ys hlen3 z).mp hz with hz1 | hz2
        · exact hx1 z hz1
        · exact hy1 z hz2
      · rw [if_neg (asymm hgt), if_pos hgt]
        refine List.pairwise_cons.mpr ⟨?_, ih (x :: xs) ys hlen2 hx hy2⟩
        intro z hz
        rcases (mem_mergeFuel n (x :: xs) ys hlen2 z).mp hz with hz1 | hz2
        · rcases List.mem_cons.mp hz1 with rfl | hz3
          · exact hgt
          · exact lt_trans hgt (hx1 z hz3)
        · exact hy1 z hz2

theorem mergeFuel_self : ∀ (n : ℕ) (l : List ℚ), l.length ≤ n → mergeFuel n l l = l := by
  intro n
  induction n with
  | zero =>
    intro l h
    match l with
    | [] => rfl
    | x :: xs => simp at h
  | succ n ih =>
    intro l h
    match l with
    | [] => rfl
    | x :: xs =>
      simp only [mergeFuel, lt_self_iff_false, if_false]
      rw [ih xs (by simp only [List.length_cons] at h; omega)]

theorem merge_comm (xs ys : List ℚ) : merge xs ys = merge ys xs := by
  unfold merge
  rw [Nat.add_comm xs.length ys.length]
  exact mergeFuel_comm _ xs ys

theorem mem_merge (xs ys : List ℚ) (z : ℚ) : z ∈ merge xs ys ↔ z ∈ xs ∨ z ∈ ys :=
  mem_mergeFuel _ xs ys (le_refl _) z

theorem pairwise_merge (xs ys : List ℚ) (hx : List.Pairwise (· < ·) xs)
    (hy : List.Pairwise (· < ·) ys) : List.Pairwise (· < ·) (merge xs ys) :=
  pairwise_mergeFuel _ xs ys (le_refl _) hx hy

theorem merge_self (l : List ℚ) : merge l l = l :=
  mergeFuel_self _ l (by omega)

theorem headD_mem {l : List ℚ} (h : l ≠ []) : l.head?.getD 0 ∈ l := by
  cases l with
  | nil => exact absurd rfl h
  | cons a t => simp

theorem getLastD_mem : ∀ (l : List ℚ), l ≠ [] → l.getLast?.getD 0 ∈ l := by
  intro l
  induction l with
  | nil => intro h; exact absurd rfl h
  | cons a t ih =>
    intro _
    cases t with
    | nil => simp
    | cons b t' =>
      rw [List.getLast?_cons_cons]
      exact List.mem_cons_of_mem a (ih (by simp))

theorem head_le_of_mem {l : List ℚ} (hl : List.Pairwise (· < ·) l) {z : ℚ} (hz : z ∈ l) :
    l.head?.getD 0 ≤ z := by
  cases l with
  | nil => cases hz
  | cons a t =>
    rcases List.mem_cons.mp hz with rfl | hmem
    · simp
    · simp only [List.head?_cons, Option.getD_some]
      exact ((List.pairwise_cons.mp hl).1 z hmem).le

theorem le_getLast_of_mem : ∀ (l : List ℚ), List.Pairwise (· < ·) l →
    ∀ z ∈ l, z ≤ l.getLast?.getD 0 := by
  intro l
  induction l with
  | nil => intro _ z hz; cases hz
  | cons a t ih =>
    intro hl z hz
    cases t with
    | nil =>
      rcases List.mem_cons.mp hz with rfl | h
      · simp
      · cases h
    | cons b t' =>
      rw [List.getLast?_cons_cons]
      have h1 := (List.pairwise_cons.mp hl).1
      have h2 := (List.pairwise_cons.mp hl).2
      rcases List.mem_cons.mp hz with rfl | hmem
      · exact le_trans (h1 b (by simp)).le (ih h2 b (by simp))
      · exact ih h2 z hmem

theorem head_filter_sorted : ∀ (l : List ℚ), List.Pairwise (· < ·) l →
    ∀ (p : ℚ → Bool) (x : ℚ), x ∈ l → p x = true → (∀ y ∈ l, p y = true → x ≤ y) →
    (l.filter p).head? = some x := by
  intro l
  induction l with
  | nil => intro _ p x hx; cases hx
  | cons a t ih =>
    intro hl p x hx hpx hmin
    by_cases hpa : p a = true
    · rw [List.filter_cons_of_pos hpa]
      have hxa : x ≤ a := hmin a (by simp) hpa
      have hax : a ≤ x := by
        rcases List.mem_cons.mp hx with rfl | hmem
        · exact le_refl x
        · exact ((List.pairwise_cons.mp hl).1 x hmem).le
      rw [List.head?_cons]
      exact congrArg some (le_antisymm hax hxa)
    · rw [List.filter_cons_of_neg (by simpa using hpa)]
      have hxt : x ∈ t := by
        rcases List.mem_cons.mp hx with rfl | hmem
        · exact absurd hpx hpa
        · exact hmem
      exact ih (List.pairwise_cons.mp hl).2 p x hxt hpx
        (fun y hy hpy => hmin y (List.mem_cons_of_mem a hy) hpy)

theorem getLast_filter_sorted : ∀ (l : List ℚ), List.Pairwise (· < ·) l →
    ∀ (p : ℚ → Bool) (x : ℚ), x ∈ l → p x = true → (∀ y ∈ l, p y = true → y ≤ x) →
    (l.filter p).getLast? = some x := by
  intro l
  induction l with
  | nil => intro _ p x hx; cases hx
  | cons a t ih =>
    intro hl p x hx hpx hmax
    have h1 := (List.pairwise_cons.mp hl).1
    have h2 := (List.pairwise_cons.mp hl).2
    by_cases hpa : p a = true
    · rw [List.filter_cons_of_pos hpa]
      rcases List.mem_cons.mp hx with rfl | hmem
      · have ht : t.filter p = [] := by
          refine List.filter_eq_nil_iff.mpr ?_
          intro y hy hpy
          exact absurd (hmax y (List.mem_cons_of_mem x hy) hpy) (not_le.mpr (h1 y hy))
        rw [ht]
        rfl
      · have hrec := ih h2 p x hmem hpx
          (fun y hy hpy => hmax y (List.mem_cons_of_mem a hy) hpy)
        cases hft : t.filter p with
        | nil => rw [hft] at hrec; cases hrec
        | cons b m =>
          rw [hft] at hrec
          rw [List.getLast?_cons_cons]
          exact hrec
    · rw [List.filter_cons_of_neg (by simpa using hpa)]
      have hxt : x ∈ t := by
        rcases List.mem_cons.mp hx with rfl | hmem
        · exact absurd hpx hpa
        · exact hmem
      exact ih h2 p x hxt hpx (fun y hy hpy => hmax y (List.mem_cons_of_mem a hy) hpy)

theorem interp_at_mem : ∀ (s : List (ℚ × ℚ)), List.Pairwise (· < ·) (s.map Prod.fst) →
    ∀ (w v : ℚ), (w, v) ∈ s → interp s w = v := by
  intro s
  induction s with
  | nil => intro _ w v h; cases h
  | cons p rest ih =>
    intro hs w v hmem
    obtain ⟨w1, v1⟩ := p
    cases rest with
    | nil =>
      rcases List.mem_cons.mp hmem with heq | h
      · obtain ⟨hw, hv⟩ := Prod.ext_iff.mp heq
        subst hw
        subst hv
        simp [interp]
      · cases h
    | cons q rest' =>
      obtain ⟨w2, v2⟩ := q
      have hs' : List.Pairwise (· < ·) (w1 :: w2 :: rest'.map Prod.fst) := hs
      have h1 := (List.pairwise_cons.mp hs').1
      have h2 := (List.pairwise_cons.mp hs').2
      rcases List.mem_cons.mp hmem with heq | hmem2
      · obtain ⟨hw, hv⟩ := Prod.ext_iff.mp heq
        subst hw
        subst hv
        simp [interp]
      · have hwmem : w ∈ w2 :: rest'.map Prod.fst := by
          rcases List.mem_cons.mp hmem2 with heq | h3
          · rw [List.mem_cons]
            left
            exact (Prod.ext_iff.mp heq).1
          · exact List.mem_cons_of_mem _ (List.mem_map.mpr ⟨(w, v), h3, rfl⟩)
        have hw1w : w1 < w := h1 w hwmem
        simp only [interp]
        rw [if_neg (not_le.mpr hw1w)]
        by_cases hww2 : w ≤ w2
        · rw [if_pos hww2]
          rcases List.mem_cons.mp hmem2 with heq | h3
          · obtain ⟨hw, hv⟩ := Prod.ext_iff.mp heq
            subst hw
            subst hv
            have hne : w - w1 ≠ 0 := sub_ne_zero.mpr (ne_of_gt hw1w)
            rw [mul_div_assoc, div_self hne, mul_one]
            ring
          · have hw2w : w2 < w :=
              (List.pairwise_cons.mp h2).1 w (List.mem_map.mpr ⟨(w, v), h3, rfl⟩)
            exact absurd hww2 (not_le.mpr hw2w)
        · rw [if_neg hww2]
          exact ih h2 w v hmem2

theorem map_fst_graph (l : List ℚ) (f : ℚ → ℚ × ℚ) (hf : ∀ x, (f x).1 = x) :
    ((l.map f).map Prod.fst) = l := by
  induction l with
  | nil => rfl
  | cons a t ih => simp [ih, hf]

theorem curveMul_samples (a b : Curve) :
    (curveMul a b).samples = ((merge a.grid b.grid).filter
      (fun x => decide (max a.lo b.lo ≤ x) && decide (x ≤ min a.hi b.hi))).map
      (fun x => (x, interp a.samples x * interp b.samples x)) := rfl

theorem curveMul_grid (a b : Curve) :
    (curveMul a b).grid = (merge a.grid b.grid).filter
      (fun x => decide (max a.lo b.lo ≤ x) && decide (x ≤ min a.hi b.hi)) := by
  unfold Curve.grid
  rw [curveMul_samples]
  exact map_fst_graph _ _ (fun x => rfl)

theorem grid_ne_nil {c : Curve} (h : c.samples ≠ []) : c.grid ≠ [] := by
  unfold Curve.grid
  simpa using h

theorem curveMul_lo (a b : Curve) (ha : a.WF) (hb : b.WF)
    (hov : max a.lo b.lo ≤ min a.hi b.hi) :
    (curveMul a b).lo = max a.lo b.lo := by
  have hM : List.Pairwise (· < ·) (merge a.grid b.grid) :=
    pairwise_merge _ _ ha.2 hb.2
  have hLM : max a.lo b.lo ∈ merge a.grid b.grid := by
    rcases max_choice a.lo b.lo with h | h
    · rw [h]; exact (mem_merge _ _ _).mpr (Or.inl (headD_mem (grid_ne_nil ha.1)))
    · rw [h]; exact (mem_merge _ _ _).mpr (Or.inr (headD_mem (grid_ne_nil hb.1)))
  have hhead := head_filter_sorted (merge a.grid b.grid) hM
    (fun x => decide (max a.lo b.lo ≤ x) && decide (x ≤ min a.hi b.hi))
    (max a.lo b.lo) hLM (by simp [hov])
    (by intro y hy hpy; simp only [Bool.and_eq_true, decide_eq_true_eq] at hpy; exact hpy.1)
  unfold Curve.lo
  rw [curveMul_grid, hhead]
  rfl

theorem curveMul_hi (a b : Curve) (ha : a.WF) (hb : b.WF)
    (hov : max a.lo b.lo ≤ min a.hi b.hi) :
    (curveMul a b).hi = min a.hi b.hi := by
  have hM : List.Pairwise (· < ·) (merge a.grid b.grid) :=
    pairwise_merge _ _ ha.2 hb.2
  have hHM : min a.hi b.hi ∈ merge a.grid b.grid := by
    rcases min_choice a.hi b.hi with h | h
    · rw [h]; exact (mem_merge _ _ _).mpr (Or.inl (getLastD_mem _ (grid_ne_nil ha.1)))
    · rw [h]; exact (mem_merge _ _ _).mpr (Or.inr (getLastD_mem _ (grid_ne_nil hb.1)))
  have hlast := getLast_filter_sorted (merge a.grid b.grid) hM
    (fun x => decide (max a.lo b.lo ≤ x) && decide (x ≤ min a.hi b.hi))
    (min a.hi b.hi) hHM (by simp [hov])
    (by intro y hy hpy; simp only [Bool.and_eq_true, decide_eq_true_eq] at hpy; exact hpy.2)
  unfold Curve.hi
  rw [curveMul_grid, hlast]
  rfl

theorem curveMul_eval_at_grid (a b : Curve) (ha : a.WF) (hb : b.WF)
    (hov : max a.lo b.lo ≤ min a.hi b.hi) (x : ℚ) (hx : x ∈ (curveMul a b).grid) :
    evaluate a x = some (interp a.samples x) ∧
    evaluate b x = some (interp b.samples x) ∧
    evaluate (curveMul a b) x = some (interp a.samples x * interp b.samples x) := by
  have hx' := hx
  rw [curveMul_grid] at hx'
  have hmf := List.mem_filter.mp hx'
  have hbounds : max a.lo b.lo ≤ x ∧ x ≤ min a.hi b.hi := by
    have h2 := hmf.2
    simpa using h2
  refine ⟨?_, ?_, ?_⟩
  · unfold evaluate
    rw [if_pos ⟨le_trans (le_max_left _ _) hbounds.1, le_trans hbounds.2 (min_le_left _ _)⟩]
  · unfold evaluate
    rw [if_pos ⟨le_trans (le_max_right _ _) hbounds.1, le_trans hbounds.2 (min_le_right _ _)⟩]
  · have hsorted : List.Pairwise (· < ·) ((curveMul a b).samples.map Prod.fst) := by
      have hpw := (pairwise_merge _ _ ha.2 hb.2).filter
        (fun x => decide (max a.lo b.lo ≤ x) && decide (x ≤ min a.hi b.hi))
      rw [← curveMul_grid] at hpw
      exact hpw
    have hmem : (x, interp a.samples x * interp b.samples x) ∈ (curveMul a b).samples := by
      rw [curveMul_samples]
      exact List.mem_map.mpr ⟨x, hx', rfl⟩
    have hinterp : interp (curveMul a b).samples x = interp a.samples x * interp b.samples x :=
      interp_at_mem _ hsorted x _ hmem
    unfold evaluate
    rw [if_pos ⟨by rw [curveMul_lo a b ha hb hov]; exact hbounds.1,
                by rw [curveMul_hi a b ha hb hov]; exact hbounds.2⟩, hinterp]

theorem map_congr_mem {α β : Type} (l : List α) (f g : α → β) (h : ∀ a ∈ l, f a = g a) :
    l.map f = l.map g := by
  induction l with
  | nil => rfl
  | cons a t ih =>
    simp only [List.map_cons]
    rw [h a (by simp), ih (fun b hb => h b (List.mem_cons_of_mem a hb))]

theorem uniformCurve_grid (g : List ℚ) (v : ℚ) : (uniformCurve g v).grid = g :=
  map_fst_graph g _ (fun _ => rfl)

theorem uniform_samples_sorted (g : List ℚ) (hg : List.Pairwise (· < ·) g) (v : ℚ) :
    List.Pairwise (· < ·) ((uniformCurve g v).samples.map Prod.fst) := by
  have h := uniformCurve_grid g v
  unfold Curve.grid at h
  rw [h]
  exact hg

theorem interp_uniform (g : List ℚ) (hg : List.Pairwise (· < ·) g) (v x : ℚ) (hx : x ∈ g) :
    interp (uniformCurve g v).samples x = v :=
  interp_at_mem _ (uniform_samples_sorted g hg v) x v (List.mem_map.mpr ⟨x, hx, rfl⟩)

theorem curveMul_uniform (g : List ℚ) (hg : List.Pairwise (· < ·) g) (v w : ℚ) :
    curveMul (uniformCurve g v) (uniformCurve g w) = uniformCurve g (v * w) := by
  have hgv : (uniformCurve g v).grid = g := uniformCurve_grid g v
  have hgw : (uniformCurve g w).grid = g := uniformCurve_grid g w
  have hlov : (uniformCurve g v).lo = g.head?.getD 0 := by unfold Curve.lo; rw [hgv]
  have hlow : (uniformCurve g w).lo = g.head?.getD 0 := by unfold Curve.lo; rw [hgw]
  have hhiv : (uniformCurve g v).hi = g.getLast?.getD 0 := by unfold Curve.hi; rw [hgv]
  have hhiw : (uniformCurve g w).hi = g.getLast?.getD 0 := by unfold Curve.hi; rw [hgw]
  have hfilter : g.filter (fun x => decide (g.head?.getD 0 ≤ x) &&
      decide (x ≤ g.getLast?.getD 0)) = g := by
    apply List.filter_eq_self.mpr
    intro x hx
    simp only [Bool.and_eq_true, decide_eq_true_eq]
    exact ⟨head_le_of_mem hg hx, le_getLast_of_mem g hg x hx⟩
  have hmap : g.map (fun x => (x, interp (uniformCurve g v).samples x *
      interp (uniformCurve g w).samples x)) = g.map (fun x => (x, v * w)) := by
    apply map_congr_mem
    intro x hx
    rw [interp_uniform g hg v x hx, interp_uniform g hg w x hx]
  calc curveMul (uniformCurve g v) (uniformCurve g w)
      = ⟨g.map (fun x => (x, interp (uniformCurve g v).samples x *
          interp (uniformCurve g w).samples x)), []⟩ := by
        simp only [curveMul, hgv, hgw, hlov, hlow, hhiv, hhiw, max_self, min_self,
          merge_self, hfilter]
    _ = ⟨g.map (fun x => (x, v * w)), []⟩ := by rw [hmap]
    _ = uniformCurve g (v * w) := rfl

theorem evaluate_uniform (g : List ℚ) (hg : List.Pairwise (· < ·) g) (v x : ℚ) (hx : x ∈ g) :
    evaluate (uniformCurve g v) x = some v := by
  have hlo : (uniformCurve g v).lo = g.head?.getD 0 := by
    unfold Curve.lo; rw [uniformCurve_grid]
  have hhi : (uniformCurve g v).hi = g.getLast?.getD 0 := by
    unfold Curve.hi; rw [uniformCurve_grid]
  unfold evaluate
  rw [if_pos ⟨by rw [hlo]; exact head_le_of_mem hg hx,
              by rw [hhi]; exact le_getLast_of_mem g hg x hx⟩]
  exact congrArg some (interp_uniform g hg v x hx)

theorem pairwise_map_lt (f : ℕ → ℚ) (hf : ∀ a b : ℕ, a < b → f a < f b) :
    ∀ l : List ℕ, List.Pairwise (· < ·) l → List.Pairwise (· < ·) (l.map f) := by
  intro l
  induction l with
  | nil => intro _; exact List.Pairwise.nil
  | cons a t ih =>
    intro h
    rw [List.map_cons]
    refine List.pairwise_cons.mpr ⟨?_, ih (List.pairwise_cons.mp h).2⟩
    intro z hz
    obtain ⟨b, hb, rfl⟩ := List.mem_map.mp hz
    exact hf a b ((List.pairwise_cons.mp h).1 b hb)

theorem grid300_sorted : List.Pairwise (· < ·) grid300 :=
  pairwise_map_lt _ (fun a b hab => add_lt_add_left (by exact_mod_cast hab) 300)
    _ (List.pairwise_lt_range 1201)

theorem mem_grid300_300 : (300 : ℚ) ∈ grid300 := by
  have h := List.mem_map_of_mem (fun i : ℕ => 300 + (i : ℚ))
    (List.mem_range.mpr (show 0 < 1201 by norm_num))
  have he : (fun i : ℕ => 300 + (i : ℚ)) 0 = (300 : ℚ) := by norm_num
  rw [he] at h
  exact h

theorem grid300_ne_nil : grid300 ≠ [] := by
  intro h
  have hm := mem_grid300_300
  rw [h] at hm
  cases hm

theorem foldl_curveMul_uniform (g : List ℚ) (hg : List.Pairwise (· < ·) g) (v w : ℚ) :
    ∀ m : ℕ, (List.range m).foldl (fun acc _ => curveMul acc (uniformCurve g w))
      (uniformCurve g v) = uniformCurve g (v * w ^ m) := by
  intro m
  induction m with
  | zero => simp
  | succ m ih =>
    rw [List.range_succ, List.foldl_append]
    simp only [List.foldl_cons, List.foldl_nil]
    rw [ih, curveMul_uniform g hg, mul_assoc, ← pow_succ]

theorem telescope_reflectivity (name : String) (r : ℚ) (n : ℕ) :
    (Telescope.init_scalar name r n).reflectivity = uniformCurve grid300 (r ^ (n - 1 + 1)) := by
  have hmk : mkCurve true (grid300.map (fun w => (w, r))) [] = uniformCurve grid300 r := rfl
  unfold Telescope.init_scalar
  simp only [hmk]
  rw [foldl_curveMul_uniform grid300 grid300_sorted r r (n - 1), ← pow_succ']

theorem listMax_map_const : ∀ (g : List ℚ), g ≠ [] → ∀ c : ℚ, listMax (g.map (fun _ => c)) = c := by
  intro g
  induction g with
  | nil => intro h; exact absurd rfl h
  | cons a t ih =>
    intro _ c
    cases t with
    | nil => rfl
    | cons b t' =>
      show max c (listMax ((b :: t').map (fun _ => c))) = c
      rw [ih (by simp) c, max_self]

theorem uniform_values (g : List ℚ) (v : ℚ) :
    (uniformCurve g v).samples.map Prod.snd = g.map (fun _ => v) := by
  unfold uniformCurve
  rw [List.map_map]
  rfl

theorem sum_map_div (l : List ℚ) (c : ℚ) : (l.map (fun v => v / c)).sum = l.sum / c := by
  induction l with
  | nil => simp
  | cons a t ih => simp [ih, add_div]

theorem mean_map_div (l : List ℚ) (c : ℚ) : mean (l.map (fun v => v / c)) = mean l / c := by
  unfold mean
  rw [sum_map_div, List.length_map, div_div, div_div, mul_comm c (l.length : ℚ)]

theorem lookup_append_isSome (g : String) (l1 l2 : List (String × Curve)) :
    ((l1 ++ l2).lookup g).isSome = ((l1.lookup g).isSome || (l2.lookup g).isSome) := by
  induction l1 with
  | nil => simp [List.lookup]
  | cons p t ih =>
    obtain ⟨k, c⟩ := p
    simp only [List.cons_append, List.lookup]
    cases hgk : (g == k) with
    | true => simp
    | false => simpa using ih

theorem lookup_singleton_isSome (g f : String) (c : Curve) :
    (([(f, c)] : List (String × Curve)).lookup g).isSome = (g == f) := by
  cases hgf : (g == f) <;> simp [List.lookup, hgf]

theorem build_filterset_lookup (env : FilterEnv) : ∀ (fl : List String)
    (acc fs : List (String × Curve)), build_filterset env fl acc = .ok fs →
    ∀ g : String, (fs.lookup g).isSome = true ↔ (acc.lookup g).isSome = true ∨ g ∈ fl := by
  intro fl
  induction fl with
  | nil =>
    intro acc fs h g
    simp only [build_filterset] at h
    injection h with h
    subst h
    simp
  | cons f rest ih =>
    intro acc fs h g
    simp only [build_filterset] at h
    by_cases hacc : (acc.lookup f).isSome = true
    · rw [if_pos hacc] at h
      rw [List.mem_cons, ih acc fs h g]
      constructor
      · rintro (h1 | h2)
        · exact Or.inl h1
        · exact Or.inr (Or.inr h2)
      · rintro (h1 | h2 | h3)
        · exact Or.inl h1
        · subst h2; exact Or.inl hacc
        · exact Or.inr h3
    · rw [if_neg hacc] at h
      cases hsb : Instrument.set_bandpass_from_filter env f with
      | error e => rw [hsb] at h; cases h
      | ok c =>
        rw [hsb] at h
        rw [ih _ fs h g, lookup_append_isSome, lookup_singleton_isSome]
        simp only [Bool.or_eq_true, beq_iff_eq, List.mem_cons]
        tauto

theorem instrument_init_inv (env : FilterEnv) (name : String)
    (na nl nm : ℕ) (arc lent mirr : ℚ) (fl : List String) (ccd_in : QEInput)
    (i : Instrument)
    (h : Instrument.init env name na nl nm arc lent mirr fl ccd_in = .ok i) :
    i.filterlist = fl ∧ ∀ g : String, (i.filterset.lookup g).isSome = true ↔ g ∈ fl := by
  unfold Instrument.init at h
  cases hbs : build_filterset env fl [] with
  | error e => rw [hbs] at h; cases h
  | ok fs =>
    rw [hbs] at h
    injection h with h
    subst h
    refine ⟨rfl, ?_⟩
    intro g
    have hb := build_filterset_lookup env fl [] fs hbs g
    simpa [List.lookup] using hb

/-- C1 (amended): for well-formed Curves `a`, `b` whose native domains
overlap, `a.multiply(b)` has as its domain exactly the intersection of the
two native domains, the pointwise identity
`(a.multiply(b)).evaluate(x) = a.evaluate(x) * b.evaluate(x)` holds at every
wavelength `x` of the result's sample grid, and no value is produced outside
the intersection (no extrapolation). -/
theorem C1_mul_domain_intersection_grid_pointwise (a b : Curve) (ha : a.WF) (hb : b.WF)
    (hov : max a.lo b.lo ≤ min a.hi b.hi) :
    (curveMul a b).lo = max a.lo b.lo ∧
    (curveMul a b).hi = min a.hi b.hi ∧
    (∀ x ∈ (curveMul a b).grid, ∃ va vb,
      evaluate a x = some va ∧ evaluate b x = some vb ∧
      evaluate (curveMul a b) x = some (va * vb)) ∧
    (∀ x : ℚ, x < max a.lo b.lo ∨ min a.hi b.hi < x → evaluate (curveMul a b) x = none) := by
  refine ⟨curveMul_lo a b ha hb hov, curveMul_hi a b ha hb hov, ?_, ?_⟩
  · intro x hx
    obtain ⟨h1, h2, h3⟩ := curveMul_eval_at_grid a b ha hb hov x hx
    exact ⟨interp a.samples x, interp b.samples x, h1, h2, h3⟩
  · intro x hx
    have hno : ¬((curveMul a b).lo ≤ x ∧ x ≤ (curveMul a b).hi) := by
      rw [curveMul_lo a b ha hb hov, curveMul_hi a b ha hb hov]
      rcases hx with h | h
      · intro hc
        exact absurd hc.1 (not_le.mpr h)
      · intro hc
        exact absurd hc.2 (not_le.mpr h)
    unfold evaluate
    rw [if_neg hno]

/-- A ramp curve, value 0 at 1 nm rising linearly to 1 at 3 nm. -/
def rampCurve : Curve := ⟨[(1, 0), (3, 1)], []⟩

theorem rampCurve_mul_self : curveMul rampCurve rampCurve = ⟨[(1, 0), (3, 1)], []⟩ := by
  have hlo : rampCurve.lo = 1 := rfl
  have hhi : rampCurve.hi = 3 := rfl
  have hmerge : merge rampCurve.grid rampCurve.grid = [1, 3] := merge_self _
  simp only [curveMul, hlo, hhi, max_self, min_self, hmerge]
  norm_num [List.filter, interp, rampCurve]

/-- C1 counterexample: with linear interpolation, the pointwise product
identity fails strictly between grid points.  At the midpoint 2 of the
intersection domain [1, 3], the product curve of the ramp with itself
evaluates to 1/2 while the product of the evaluations at 2 is 1/4, far
beyond any floating tolerance. -/
theorem C1_cex_midpoint :
    rampCurve.WF ∧
    rampCurve.lo ≤ 2 ∧ (2 : ℚ) ≤ rampCurve.hi ∧
    evaluate rampCurve 2 = some (1/2) ∧
    evaluate (curveMul rampCurve rampCurve) 2 = some (1/2) ∧
    ((1 : ℚ)/2) ≠ (1/2) * (1/2) := by
  refine ⟨⟨by simp [rampCurve], by norm_num [rampCurve, Curve.grid]⟩, ?_, ?_, ?_, ?_, by norm_num⟩
  · norm_num [rampCurve, Curve.lo, Curve.grid]
  · norm_num [rampCurve, Curve.hi, Curve.grid]
  · norm_num [evaluate, rampCurve, Curve.lo, Curve.hi, Curve.grid, interp]
  · rw [rampCurve_mul_self]
    norm_num [evaluate, Curve.lo, Curve.hi, Curve.grid, interp]

/-- Second curve for the C1 witness: values 1 at 2 nm, 2 at 4 nm. -/
def wC1b : Curve := ⟨[(2, 1), (4, 2)], []⟩

/-- C1 witness: the amended theorem instantiated at two concrete
overlapping curves. -/
theorem C1_witness :
    rampCurve.WF ∧ wC1b.WF ∧ max rampCurve.lo wC1b.lo ≤ min rampCurve.hi wC1b.hi ∧
    ((curveMul rampCurve wC1b).lo = max rampCurve.lo wC1b.lo ∧
     (curveMul rampCurve wC1b).hi = min rampCurve.hi wC1b.hi ∧
     (∀ x ∈ (curveMul rampCurve wC1b).grid, ∃ va vb,
       evaluate rampCurve x = some va ∧ evaluate wC1b x = some vb ∧
       evaluate (curveMul rampCurve wC1b) x = some (va * vb)) ∧
     (∀ x : ℚ, x < max rampCurve.lo wC1b.lo ∨ min rampCurve.hi wC1b.hi < x →
       evaluate (curveMul rampCurve wC1b) x = none)) := by
  have hwfa : rampCurve.WF := ⟨by simp [rampCurve], by norm_num [rampCurve, Curve.grid]⟩
  have hwfb : wC1b.WF := ⟨by simp [wC1b], by norm_num [wC1b, Curve.grid]⟩
  have hov : max rampCurve.lo wC1b.lo ≤ min rampCurve.hi wC1b.hi := by
    norm_num [rampCurve, wC1b, Curve.lo, Curve.hi, Curve.grid]
  exact ⟨hwfa, hwfb, hov,
    C1_mul_domain_intersection_grid_pointwise rampCurve wC1b hwfa hwfb hov⟩

/-- The Site used as concrete evidence: scalar transmission 0.5. -/
def siteHalf : Site := Site.init_scalar "CTIO" (1/2)

/-- A Telescope with one mirror of scalar reflectivity 0.9. -/
def telOne : Telescope := Telescope.init_scalar "FTN" (9/10) 1

theorem mkCurve_false_uniform (g : List ℚ) (v : ℚ) (hv : 0 ≤ v) :
    mkCurve false (g.map (fun w => (w, v))) [] = uniformCurve g v := by
  unfold mkCurve uniformCurve
  rw [if_neg (by simp), List.map_map]
  congr 1
  apply map_congr_mem
  intro w _
  simp only [Function.comp_apply]
  rw [max_eq_left hv]

theorem curveScale_uniform (g : List ℚ) (v q : ℚ) :
    curveScale (uniformCurve g v) q = uniformCurve g (v * q) := by
  unfold curveScale uniformCurve
  rw [List.map_map]
  rfl

theorem curveScaleDiv_uniform (g : List ℚ) (v q : ℚ) :
    curveScaleDiv (uniformCurve g v) q = uniformCurve g (v / q) := by
  unfold curveScaleDiv uniformCurve
  rw [List.map_map]
  rfl

theorem uniformCurve_ne (g : List ℚ) (hg : List.Pairwise (· < ·) g) (hne : g ≠ [])
    (v w : ℚ) (hvw : v ≠ w) : uniformCurve g v ≠ uniformCurve g w := by
  intro h
  have h1 := evaluate_uniform g hg v (g.head?.getD 0) (headD_mem hne)
  have h2 := evaluate_uniform g hg w (g.head?.getD 0) (headD_mem hne)
  rw [h] at h1
  rw [h1] at h2
  exact hvw (Option.some.inj h2)

theorem siteHalf_transmission : siteHalf.transmission = uniformCurve grid300 (1/2) :=
  mkCurve_false_uniform grid300 (1/2) (by norm_num)

theorem telOne_reflectivity : telOne.reflectivity = uniformCurve grid300 (9/10) := by
  have h := telescope_reflectivity "FTN" (9/10) 1
  rw [show (1:ℕ) - 1 + 1 = 1 from rfl, pow_one] at h
  exact h

/-- C2 (code_bug evidence): `Site.__mul__` executes `newcls = self` and then
rebinds `newcls.transmission`, so after `site * 2` the operand's stored
transmission Curve has changed (uniform value 1/2 before the call, uniform
value 1 afterwards); `Telescope.__truediv__` mutates the stored reflectivity
the same way.  The claim (and spec sections 3 and 9) require the stored
Curve of each operand to remain unchanged and a plain Curve (not the mutated
component) to be returned. -/
theorem C2_mul_mutates_operand :
    Site.mul siteHalf (.scalar 2) =
      some (⟨"CTIO", curveScale siteHalf.transmission 2⟩,
            ⟨"CTIO", curveScale siteHalf.transmission 2⟩) ∧
    curveScale siteHalf.transmission 2 ≠ siteHalf.transmission ∧
    Telescope.truediv telOne (.scalar 2) =
      some (⟨"FTN", 1, curveScaleDiv telOne.reflectivity 2⟩,
            ⟨"FTN", 1, curveScaleDiv telOne.reflectivity 2⟩) ∧
    curveScaleDiv telOne.reflectivity 2 ≠ telOne.reflectivity := by
  refine ⟨rfl, ?_, rfl, ?_⟩
  · rw [siteHalf_transmission, curveScale_uniform]
    exact uniformCurve_ne grid300 grid300_sorted grid300_ne_nil _ _ (by norm_num)
  · rw [telOne_reflectivity, curveScaleDiv_uniform]
    exact uniformCurve_ne grid300 grid300_sorted grid300_ne_nil _ _ (by norm_num)

/-- C3 counterexample: `telescope * site` fails, because
`Telescope.__mul__` passes the Site object unconverted to the synphot
multiplication, while `site * telescope` succeeds (`Site.__mul__` converts
the Telescope to its reflectivity Curve); so not every ordered pair of
OpticalComponents multiplies successfully in both orders. -/
theorem C3_cex_tel_times_site :
    Telescope.mul telOne (.site siteHalf) = none ∧
    (Site.mul siteHalf (.tel telOne)).isSome = true := ⟨rfl, rfl⟩

/-- C3 (amended): multiplication is commutative wherever both orders are
defined: Curve multiplication commutes outright (same grid, domain and
values), `__rmul__` delegates to `__mul__` for Site and Telescope, and
`site * telescope` equals the telescope-reflectivity-times-site-transmission
product; but `Telescope.__mul__` does not convert component operands, so
`telescope * site` fails while `site * telescope` succeeds. -/
theorem C3_mul_commutative_where_defined :
    (∀ a b : Curve, curveMul a b = curveMul b a) ∧
    (∀ (s : Site) (o : Operand), Site.rmul s o = Site.mul s o) ∧
    (∀ (t : Telescope) (o : Operand), Telescope.rmul t o = Telescope.mul t o) ∧
    (∀ (s : Site) (t : Telescope),
      (Site.mul s (.tel t)).map (fun pr => pr.1.transmission) =
        some (curveMul t.reflectivity s.transmission)) := by
  have hcomm : ∀ a b : Curve, curveMul a b = curveMul b a := by
    intro a b
    simp only [curveMul]
    rw [max_comm a.lo b.lo, min_comm a.hi b.hi, merge_comm a.grid b.grid]
    congr 1
    apply map_congr_mem
    intro x hx
    rw [mul_comm]
  refine ⟨hcomm, fun s o => rfl, fun t o => rfl, ?_⟩
  intro s t
  have h : (Site.mul s (.tel t)).map (fun pr => pr.1.transmission) =
      some (curveMul s.transmission t.reflectivity) := rfl
  rw [h, hcomm]

/-- C4 (confirmed): for an Instrument as constructed, `throughput(f)` raises
the invalid-filter ETCError exactly when `f` was not pre-registered in the
filter list (the filterset keys coincide with the filter list after
construction), and for a registered token it returns the product
filter curve x internal transmission x detector QE. -/
theorem C4_throughput_iff (env : FilterEnv) (name : String)
    (na nl nm : ℕ) (arc lent mirr : ℚ) (fl : List String) (ccd_in : QEInput)
    (i : Instrument)
    (h : Instrument.init env name na nl nm arc lent mirr fl ccd_in = .ok i)
    (f : String) :
    (Instrument.throughput i f = .error ("Filter name " ++ f ++ " is invalid.") ↔
      f ∉ i.filterlist) ∧
    (f ∈ i.filterlist → Instrument.throughput i f =
      .ok (ccd_mul (curveMul ((i.filterset.lookup f).getD default) i.transmission) i.ccd)) := by
  obtain ⟨hfl, hks⟩ := instrument_init_inv env name na nl nm arc lent mirr fl ccd_in i h
  have hok : ∀ hmem : f ∈ i.filterlist, Instrument.throughput i f =
      .ok (ccd_mul (curveMul ((i.filterset.lookup f).getD default) i.transmission) i.ccd) := by
    intro hmem
    have hs : (i.filterset.lookup f).isSome = true := (hks f).mpr (hfl ▸ hmem)
    unfold Instrument.throughput
    rw [if_pos ⟨hmem, hs⟩]
  constructor
  · constructor
    · intro herr hmem
      rw [hok hmem] at herr
      cases herr
    · intro hnmem
      unfold Instrument.throughput
      rw [if_neg (fun hc => hnmem hc.1)]
  · exact hok

/-- The concrete loader environment for witnesses: every filter file parses
to a flat two-sample profile. -/
def wEnv : FilterEnv := ⟨fun _ => [(300, 1), (301, 1)], fun _ => "profile"⟩

/-- The result of constructing the witness Instrument with filter list
`["V"]` and a scalar QE. -/
def wInstRes : Except String Instrument :=
  Instrument.init wEnv "QHY600" 2 1 0 (99/100) (9/10) (9925/10000) ["V"] (.scalar (9/10))

/-- The witness Instrument itself. -/
def wInst : Instrument := wInstRes.toOption.getD ⟨"", ⟨[], []⟩, [], [], .scalar 0⟩

/-- C4 witness: the theorem instantiated at the witness Instrument, once for
the unregistered token "XYZ" and once for the registered token "V". -/
theorem C4_witness :
    ((Instrument.throughput wInst "XYZ" =
        .error ("Filter name " ++ "XYZ" ++ " is invalid.") ↔ "XYZ" ∉ wInst.filterlist) ∧
      ("XYZ" ∈ wInst.filterlist → Instrument.throughput wInst "XYZ" =
        .ok (ccd_mul (curveMul ((wInst.filterset.lookup "XYZ").getD default)
          wInst.transmission) wInst.ccd))) ∧
    ((Instrument.throughput wInst "V" =
        .error ("Filter name " ++ "V" ++ " is invalid.") ↔ "V" ∉ wInst.filterlist) ∧
      ("V" ∈ wInst.filterlist → Instrument.throughput wInst "V" =
        .ok (ccd_mul (curveMul ((wInst.filterset.lookup "V").getD default)
          wInst.transmission) wInst.ccd))) :=
  ⟨C4_throughput_iff wEnv "QHY600" 2 1 0 (99/100) (9/10) (9925/10000) ["V"]
      (.scalar (9/10)) wInst rfl "XYZ",
   C4_throughput_iff wEnv "QHY600" 2 1 0 (99/100) (9/10) (9925/10000) ["V"]
      (.scalar (9/10)) wInst rfl "V"⟩

/-- C5 (amended): for `num_mirrors >= 1`, a Telescope built from a scalar
per-mirror reflectivity `r` stores the uniform curve with value `r ^ n`
over the 300-1500 nm grid, evaluates to `r ^ n` at every grid wavelength,
and its peak throughput is `r ^ n`. -/
theorem C5_reflectivity_pow (name : String) (r : ℚ) (n : ℕ) (h : 1 ≤ n) :
    (Telescope.init_scalar name r n).reflectivity = uniformCurve grid300 (r ^ n) ∧
    (∀ x ∈ grid300,
      evaluate (Telescope.init_scalar name r n).reflectivity x = some (r ^ n)) ∧
    Telescope.tpeak (Telescope.init_scalar name r n) = r ^ n := by
  have hn : n - 1 + 1 = n := by omega
  have hrefl := telescope_reflectivity name r n
  rw [hn] at hrefl
  refine ⟨hrefl, ?_, ?_⟩
  · intro x hx
    rw [hrefl]
    exact evaluate_uniform grid300 grid300_sorted (r ^ n) x hx
  · unfold Telescope.tpeak
    rw [hrefl, uniform_values]
    exact listMax_map_const grid300 grid300_ne_nil (r ^ n)

/-- C5 counterexample: at `num_mirrors = 0` the loop
`for x in range(0, num_mirrors-1)` is empty, so the stored reflectivity is
the single-mirror curve with value `r = 0.9`, not `r ^ 0 = 1` as the
universally quantified claim would require. -/
theorem C5_cex_zero_mirrors :
    evaluate (Telescope.init_scalar "FTN" (9/10) 0).reflectivity 300 = some (9/10) ∧
    ((9/10 : ℚ)) ^ (0 : ℕ) = 1 ∧ (9/10 : ℚ) ≠ 1 := by
  have hrefl := telescope_reflectivity "FTN" (9/10) 0
  rw [show (0 : ℕ) - 1 + 1 = 1 from rfl, pow_one] at hrefl
  refine ⟨?_, by norm_num, by norm_num⟩
  rw [hrefl]
  exact evaluate_uniform grid300 grid300_sorted (9/10) 300 mem_grid300_300

/-- C5 witness: the amended theorem at `num_mirrors = 3`, `r = 0.9`; the
uniform value is `0.9 ^ 3 = 0.729`. -/
theorem C5_witness :
    (1 : ℕ) ≤ 3 ∧
    ((Telescope.init_scalar "FTN" (9/10) 3).reflectivity =
        uniformCurve grid300 ((9/10) ^ 3) ∧
     (∀ x ∈ grid300, evaluate (Telescope.init_scalar "FTN" (9/10) 3).reflectivity x =
        some ((9/10) ^ 3)) ∧
     Telescope.tpeak (Telescope.init_scalar "FTN" (9/10) 3) = (9/10 : ℚ) ^ 3) ∧
    ((9/10 : ℚ) ^ 3 = 729/1000) :=
  ⟨by norm_num, C5_reflectivity_pow "FTN" (9/10) 3 (by norm_num), by norm_num⟩

/-- C6 counterexample: the internal transmission for
`num_ar_coatings=2, ar_coating=0.99, num_lenses=1, lens_trans=0.9,
num_mirrors=0` is exactly 0.88209 = 0.99^2 x 0.9, which differs from the
claimed 0.882225 by 0.000135 (the claimed figure mis-squares 0.99). -/
theorem C6_cex_value :
    Instrument.compute_transmission 2 (99/100) 1 (9/10) 0 (9925/10000) = 88209/100000 ∧
    (88209/100000 : ℚ) ≠ 882225/1000000 ∧
    (882225/1000000 : ℚ) - 88209/100000 = 135/1000000 := by
  refine ⟨?_, by norm_num, by norm_num⟩
  unfold Instrument.compute_transmission
  norm_num

/-- C6 (amended): the internal-transmission scalar equals
`ar_coating^num_ar_coatings x lens_trans^num_lenses x mirror_refl^num_mirrors`,
and at the quoted parameters its exact value is 0.88209. -/
theorem C6_internal_transmission_formula (na nl nm : ℕ) (arc lent mirr : ℚ) :
    Instrument.compute_transmission na arc nl lent nm mirr =
      arc ^ na * lent ^ nl * mirr ^ nm ∧
    Instrument.compute_transmission 2 (99/100) 1 (9/10) 0 (9925/10000) = 88209/100000 := by
  constructor
  · rfl
  · unfold Instrument.compute_transmission
    norm_num

/-- C7 (amended): when the mean QE sample exceeds 1.0, every sample is
divided by 100, the new mean is the old mean divided by 100 - nonnegative
always, and at most 1 exactly when the original mean was at most 100 - and
the loaded curve's provenance metadata records the rescaling note; when the
mean is at most 1.0 the samples and header are left untouched. -/
theorem C7_qe_rescaling (samples : List (ℚ × ℚ)) (fname : String) :
    (1 < mean (samples.map Prod.snd) →
      (process_qe (samples.map Prod.snd)).1 =
        (samples.map Prod.snd).map (fun v => v / 100) ∧
      mean (process_qe (samples.map Prod.snd)).1 = mean (samples.map Prod.snd) / 100 ∧
      0 ≤ mean (process_qe (samples.map Prod.snd)).1 ∧
      (mean (samples.map Prod.snd) ≤ 100 → mean (process_qe (samples.map Prod.snd)).1 ≤ 1) ∧
      ("notes", "Divided by 100.0 to convert from percentage") ∈
        ccd_curve_meta (load_ccd (.table samples fname))) ∧
    (mean (samples.map Prod.snd) ≤ 1 →
      process_qe (samples.map Prod.snd) = (samples.map Prod.snd, []) ∧
      ccd_curve_meta (load_ccd (.table samples fname)) = [("filename", fname)]) := by
  have hmeta : ccd_curve_meta (load_ccd (.table samples fname)) =
      (process_qe (samples.map Prod.snd)).2 ++ [("filename", fname)] := rfl
  constructor
  · intro hm
    have hpq : process_qe (samples.map Prod.snd) =
        ((samples.map Prod.snd).map (fun v => v / 100),
         [("notes", "Divided by 100.0 to convert from percentage")]) := by
      unfold process_qe
      rw [if_pos hm]
    have hmean : mean (process_qe (samples.map Prod.snd)).1 =
        mean (samples.map Prod.snd) / 100 := by
      rw [hpq]
      exact mean_map_div _ 100
    refine ⟨by rw [hpq], hmean, ?_, ?_, ?_⟩
    · rw [hmean]
      exact div_nonneg (le_of_lt (lt_trans zero_lt_one hm)) (by norm_num)
    · intro h100
      rw [hmean]
      exact (div_le_one (by norm_num)).mpr h100
    · rw [hmeta, hpq]
      simp
  · intro hm
    have hpq : process_qe (samples.map Prod.snd) = (samples.map Prod.snd, []) := by
      unfold process_qe
      rw [if_neg (not_lt.mpr hm)]
    refine ⟨hpq, ?_⟩
    rw [hmeta, hpq]
    rfl

/-- An improperly scaled QE table whose samples exceed 100 percent. -/
def qeTable200 : List (ℚ × ℚ) := [(300, 200), (301, 200)]

/-- C7 counterexample: for a table with mean sample 200 the rescaled mean is
2, which does not lie in [0, 1]; the claim's unconditional "resulting mean
lies in [0,1]" fails whenever the original mean exceeds 100. -/
theorem C7_cex_mean_above_100 :
    1 < mean (qeTable200.map Prod.snd) ∧
    mean (process_qe (qeTable200.map Prod.snd)).1 = 2 ∧
    ¬ mean (process_qe (qeTable200.map Prod.snd)).1 ≤ 1 := by
  have h1 : mean (qeTable200.map Prod.snd) = 200 := by
    norm_num [mean, qeTable200]
  have hpq : process_qe (qeTable200.map Prod.snd) =
      ((qeTable200.map Prod.snd).map (fun v => v / 100),
       [("notes", "Divided by 100.0 to convert from percentage")]) := by
    unfold process_qe
    rw [if_pos (by rw [h1]; norm_num)]
  have h2 : mean (process_qe (qeTable200.map Prod.snd)).1 = 2 := by
    rw [hpq]
    norm_num [mean, qeTable200]
  exact ⟨by rw [h1]; norm_num, h2, by rw [h2]; norm_num⟩

/-- A properly scaled percentage QE table with mean 6. -/
def qeTable6 : List (ℚ × ℚ) := [(300, 6), (301, 6)]

/-- C7 witness: the amended theorem at a table with mean 6.0 (the spec's
example): samples are divided by 100, the new mean 0.06 lies in [0, 1], and
the note is recorded. -/
theorem C7_witness :
    1 < mean (qeTable6.map Prod.snd) ∧
    mean (qeTable6.map Prod.snd) ≤ 100 ∧
    ((process_qe (qeTable6.map Prod.snd)).1 =
        (qeTable6.map Prod.snd).map (fun v => v / 100) ∧
      mean (process_qe (qeTable6.map Prod.snd)).1 = mean (qeTable6.map Prod.snd) / 100 ∧
      0 ≤ mean (process_qe (qeTable6.map Prod.snd)).1 ∧
      (mean (qeTable6.map Prod.snd) ≤ 100 → mean (process_qe (qeTable6.map Prod.snd)).1 ≤ 1) ∧
      ("notes", "Divided by 100.0 to convert from percentage") ∈
        ccd_curve_meta (load_ccd (.table qeTable6 "ccd_qe.dat"))) := by
  have hm : mean (qeTable6.map Prod.snd) = 6 := by norm_num [mean, qeTable6]
  exact ⟨by rw [hm]; norm_num, by rw [hm]; norm_num,
    (C7_qe_rescaling qeTable6 "ccd_qe.dat").1 (by rw [hm]; norm_num)⟩

/-- C8 (confirmed): a two-character filter token whose second character is
`p` resolves exactly as its first character does; any other token is left
unchanged by normalization; in particular "zp" resolves identically to "z". -/
theorem C8_plus_token_normalization (env : FilterEnv) (t : String) :
    (t.length = 2 → t.data[1]? = some 'p' →
      Instrument.set_bandpass_from_filter env t =
        Instrument.set_bandpass_from_filter env (String.mk (t.data.take 1))) ∧
    (¬(t.length = 2 ∧ t.data[1]? = some 'p') → normalize_token t = t) ∧
    Instrument.set_bandpass_from_filter env "zp" =
      Instrument.set_bandpass_from_filter env "z" := by
  refine ⟨?_, ?_, rfl⟩
  · intro h2 hp
    have hn1 : normalize_token t = String.mk (t.data.take 1) := by
      unfold normalize_token
      rw [if_pos ⟨h2, hp⟩]
    have hlen : (String.mk (t.data.take 1)).length = 1 := by
      have hd : t.data.length = 2 := h2
      simp [String.length, List.length_take, hd]
    have hn2 : normalize_token (String.mk (t.data.take 1)) = String.mk (t.data.take 1) := by
      unfold normalize_token
      rw [if_neg (fun hc => by rw [hc.1] at hlen; cases hlen)]
    unfold Instrument.set_bandpass_from_filter
    rw [hn1, hn2]
  · intro h
    unfold normalize_token
    rw [if_neg h]

/-- C8 witness: the theorem applied to the plus-variant token "rp" (reduced
to "r") and to "RP" (capital second letter, left unchanged). -/
theorem C8_witness :
    Instrument.set_bandpass_from_filter wEnv "rp" =
      Instrument.set_bandpass_from_filter wEnv (String.mk ("rp".data.take 1)) ∧
    normalize_token "RP" = "RP" :=
  ⟨(C8_plus_token_normalization wEnv "rp").1 (by decide) (by decide),
   (C8_plus_token_normalization wEnv "RP").2.1 (by decide)⟩

/-- C9 (confirmed): when the primary atmospheric-table read fails because
the `trans` column is absent, exactly one further read is attempted - the
ESO dialect with the `flux` column and micron wavelengths - and an error
surfaces to the caller only if that fallback also fails. -/
theorem C9_fallback_once (f : SkyTable) (h : f.trans = none) :
    (Site.load_transmission f).1 = [.primary, .eso] ∧
    (∀ e : Unit, (Site.load_transmission f).2 = .error e → f.flux = none) ∧
    (∀ vals : List ℚ, f.flux = some vals → (Site.load_transmission f).2 =
      .ok (mkCurve false ((f.lam.map (fun w => w * 1000)).zip vals) [])) := by
  obtain ⟨lam, tcol, fcol⟩ := f
  subst h
  cases fcol with
  | none =>
    refine ⟨rfl, fun e _ => rfl, fun vals hv => ?_⟩
    cases hv
  | some vals =>
    refine ⟨rfl, fun e he => ?_, fun vals' hv => ?_⟩
    · simp [Site.load_transmission, read_spec_trans, read_spec_flux_micron] at he
    · injection hv with hv
      subst hv
      rfl

/-- C9 witness: a table with neither dialect's column: both reads are
attempted, in order, and the error surfaces. -/
theorem C9_witness :
    (Site.load_transmission ⟨[300], none, none⟩).1 = [.primary, .eso] ∧
    (∀ e : Unit, (Site.load_transmission ⟨[300], none, none⟩).2 = .error e →
      (⟨[300], none, none⟩ : SkyTable).flux = none) ∧
    (∀ vals : List ℚ, (⟨[300], none, none⟩ : SkyTable).flux = some vals →
      (Site.load_transmission ⟨[300], none, none⟩).2 =
        .ok (mkCurve false ((((⟨[300], none, none⟩ : SkyTable).lam).map
          (fun w => w * 1000)).zip vals) [])) :=
  C9_fallback_once ⟨[300], none, none⟩ rfl

/-- C10 (confirmed): the tokens "z" and "zs" both map to `Conf.lco_zs_file`,
so the two resolved Curves are built from the same resource: they have
identical samples and evaluate identically at every wavelength (only the
`expr` metadata entry differs). -/
theorem C10_z_zs_same_resource (env : FilterEnv) :
    ∃ cz czs : Curve,
      Instrument.set_bandpass_from_filter env "z" = .ok cz ∧
      Instrument.set_bandpass_from_filter env "zs" = .ok czs ∧
      cz.samples = czs.samples ∧
      ∀ x : ℚ, evaluate cz x = evaluate czs x :=
  ⟨mkCurve false (env.data .lco_zs)
      [("filename", FilterFile.fname .lco_zs), ("descrip", env.descrip .lco_zs), ("expr", "z")],
   mkCurve false (env.data .lco_zs)
      [("filename", FilterFile.fname .lco_zs), ("descrip", env.descrip .lco_zs), ("expr", "zs")],
   rfl, rfl, rfl, fun _ => rfl⟩
